import Mathlib

/-!
# cprobe MySQL collector: custom queries

A shallow embedding of `plugins/mysql/collector/custom_queries.go` and the
properties of its row mapper (`parseRow`), its name sanitizer (`cleanName`), its
query executor (`collectCustomQuery`) and its query dispatcher
(`collectCustomQueries`).

Modelling conventions

* A Go `string` is a Lean `String`, that is a sequence of Unicode code points
  (the text is taken to be valid UTF-8).  All patterns the source passes to
  `strings.Replace` are single ASCII characters, for which replacing bytes and
  replacing code points coincide.
* A Go `map[string]string` is an association list with at most one binding per
  key; `m[k]` of an absent key is the empty string, as in Go.
* A Go `error` is its message.
* `unicode.ToLower` is fixed by the Go standard library on ASCII; its case table
  for the other code points is a parameter `tbl` of the model.
* `conv.ToFloat64` (package `lib/conv`) is a parameter `toFloat64` of the model;
  the numeric value type `V` is left abstract.
* The sample sink (`types.Samples`) and the logger (`lib/logger`) are the two
  components of the explicit state `State`.
* The goroutines of the dispatcher append to the sink and to the log one item
  at a time; the order of these appends is a schedule, a parameter of the model.
-/

namespace Collector

/-! ## Go standard library: strings -/

/-- Go `strings.Replace(s, old, new, -1)` for a pattern `old` of one character:
every occurrence of `old` is replaced by `new`, all other characters are kept. -/
def stringsReplace (s : String) (old : Char) (new : String) : String :=
  ⟨s.data.flatMap (fun c => if c = old then new.data else [c])⟩

/-- Go `unicode.ToLower`: ASCII letters are shifted by `'a' - 'A'`, other ASCII
characters are unchanged, and every other code point goes through the case
table `tbl`. -/
def unicodeToLower (tbl : Char → Char) (r : Char) : Char :=
  if r.toNat ≤ 0x7F then
    if 'A'.toNat ≤ r.toNat ∧ r.toNat ≤ 'Z'.toNat then
      Char.ofNat (r.toNat + ('a'.toNat - 'A'.toNat))
    else r
  else tbl r

/-- Go `strings.ToLower`: `unicode.ToLower` applied to every code point. -/
def stringsToLower (tbl : Char → Char) (s : String) : String :=
  ⟨s.data.map (unicodeToLower tbl)⟩

/-! ## Go maps of strings -/

/-- Go `map[string]string`. -/
abbrev StrMap := List (String × String)

/-- The two-result lookup `v, has := m[k]`. -/
def mapLookup (m : StrMap) (k : String) : Option String :=
  match m with
  | [] => none
  | (k1, v) :: rest => if k1 = k then some v else mapLookup rest k

/-- The one-result lookup `m[k]`: the empty string when `k` is absent. -/
def mapIndex (m : StrMap) (k : String) : String :=
  (mapLookup m k).getD ""

/-- The bindings of `m` for the keys other than `k`. -/
def mapRemove (m : StrMap) (k : String) : StrMap :=
  match m with
  | [] => []
  | (k1, v) :: rest => if k1 = k then mapRemove rest k else (k1, v) :: mapRemove rest k

/-- The assignment `m[k] = v`: the binding of `k` is replaced. -/
def mapStore (m : StrMap) (k v : String) : StrMap :=
  (k, v) :: mapRemove m k

/-! ## Data model -/

/-- The Go struct `CustomQuery`; `Timeout` is a `time.Duration` in nanoseconds. -/
structure CustomQuery where
  Mesurement : String
  MetricFields : List String
  LabelFields : List String
  FieldToAppend : String
  Timeout : Int
  Request : String
deriving DecidableEq, Repr

/-- Modelled from the spec: one call `ss.AddMetric(name, {field: value}, labels)`
on the sample sink `types.Samples`, which the spec describes as "append one
sample given a name, a single-field value mapping, and a label mapping". -/
structure Sample (V : Type) where
  name : String
  field : String
  value : V
  labels : StrMap
deriving DecidableEq, Repr

/-- The observable state: the sample sink `ss` and the lines written by
`logger.Errorf`. -/
structure State (V : Type) where
  ss : List (Sample V)
  log : List String
deriving DecidableEq, Repr

/-- Modelled from the spec: `ss.AddMetric` of `types.Samples` appends one sample
to the sink. -/
def State.AddMetric {V : Type} (st : State V) (name field : String) (value : V)
    (labels : StrMap) : State V :=
  { st with ss := st.ss ++ [⟨name, field, value, labels⟩] }

/-- Modelled from the spec: `logger.Errorf` of `lib/logger` reports one
diagnostic line. -/
def State.Errorf {V : Type} (st : State V) (msg : String) : State V :=
  { st with log := st.log ++ [msg] }

/-! ## Name sanitizer -/

/-- The Go function `cleanName`. -/
def cleanName (tbl : Char → Char) (s : String) : String :=
  let s := stringsReplace s ' ' "_"
  let s := stringsReplace s '(' ""
  let s := stringsReplace s ')' ""
  let s := stringsReplace s '/' ""
  let s := stringsReplace s '*' ""
  let s := stringsReplace s '%' "percent"
  let s := stringsToLower tbl s
  s

/-! ## Row mapper -/

/-- The first loop of `parseRow`, over `query.LabelFields`. -/
def labelLoop (row : StrMap) : List String → StrMap → StrMap
  | [], labels => labels
  | label :: rest, labels =>
    match mapLookup row label with
    | some labelValue => labelLoop row rest (mapStore labels label (stringsReplace labelValue ' ' "_"))
    | none => labelLoop row rest labels

/-- The second loop of `parseRow`, over `query.MetricFields`; the result is the
new state and the returned error (`none` for `nil`). -/
def metricLoop {V : Type} (toFloat64 : String → Except String V) (tbl : Char → Char)
    (row : StrMap) (query : CustomQuery) (labels : StrMap) :
    List String → State V → State V × Option String
  | [], st => (st, none)
  | column :: rest, st =>
    match toFloat64 (mapIndex row column) with
    | .error err =>
      (st.Errorf ("failed to convert field: " ++ column ++ ", value: " ++ mapIndex row column
          ++ ", error: " ++ err), some err)
    | .ok value =>
      if query.FieldToAppend = "" then
        metricLoop toFloat64 tbl row query labels rest
          (st.AddMetric query.Mesurement column value labels)
      else
        let suffix := cleanName tbl (mapIndex row query.FieldToAppend)
        metricLoop toFloat64 tbl row query labels rest
          (st.AddMetric (query.Mesurement ++ "_" ++ suffix) column value labels)

/-- The Go method `parseRow`. -/
def parseRow {V : Type} (toFloat64 : String → Except String V) (tbl : Char → Char)
    (row : StrMap) (query : CustomQuery) (st : State V) : State V × Option String :=
  let labels := labelLoop row query.LabelFields []
  metricLoop toFloat64 tbl row query labels query.MetricFields st

/-! ## Query executor -/

/-- What the database driver answers to one `db.QueryContext` call: whether the
context deadline was exceeded when the call returned, the error of the call, the
result of `rows.Columns()`, and the result of `rows.Scan` for every row that
`rows.Next()` delivers (the raw values of the row, one per column). -/
structure QueryRun where
  deadlineExceeded : Bool
  queryErr : Option String
  columns : Except String (List String)
  scans : List (Except String (List String))

/-- The inner loop of `collectCustomQuery` that fills `row`:
`row[strings.ToLower(colName)] = string(*val)` for every column in order. -/
def materializeRow (tbl : Char → Char) (cols : List String) (vals : List String) : StrMap :=
  (cols.zip vals).foldl (fun row cv => mapStore row (stringsToLower tbl cv.1) cv.2) []

/-- The loop `for rows.Next()` of `collectCustomQuery`. -/
def rowsLoop {V : Type} (toFloat64 : String → Except String V) (tbl : Char → Char)
    (query : CustomQuery) (cols : List String) :
    List (Except String (List String)) → State V → State V
  | [], st => st
  | .error err :: _, st => st.Errorf ("failed to scan: " ++ err)
  | .ok vals :: rest, st =>
    let row := materializeRow tbl cols vals
    match parseRow toFloat64 tbl row query st with
    | (st1, some err) =>
      rowsLoop toFloat64 tbl query cols rest
        (st1.Errorf ("failed to parse row: " ++ err ++ ", sql: " ++ query.Request))
    | (st1, none) => rowsLoop toFloat64 tbl query cols rest st1

/-- The Go method `collectCustomQuery`, run against the driver answer `run`. -/
def collectCustomQuery {V : Type} (toFloat64 : String → Except String V) (tbl : Char → Char)
    (run : QueryRun) (query : CustomQuery) (st : State V) : State V :=
  if run.deadlineExceeded then
    st.Errorf ("query timeout, request: " ++ query.Request)
  else
    match run.queryErr with
    | some err => st.Errorf ("failed to query: " ++ query.Request ++ ", error: " ++ err)
    | none =>
      match run.columns with
      | .error err => st.Errorf ("failed to get columns: " ++ err)
      | .ok cols => rowsLoop toFloat64 tbl query cols run.scans st

/-! ## Query dispatcher -/

/-- The order in which a shared list receives the appends of concurrent tasks.
A task is the sequence of the appends it makes, in its own order.  Each entry of
the schedule names the task whose next append happens now; an entry that names a
task with nothing left to append is idle.  When the schedule is used up, what is
left of the tasks follows, task after task: the result holds every append of
every task, as a join must. -/
def interleave {α : Type} : List Nat → List (List α) → List α
  | [], tasks => tasks.flatten
  | i :: schedule, tasks =>
    match tasks[i]? with
    | some (x :: xs) => x :: interleave schedule (tasks.set i xs)
    | _ => interleave schedule tasks

/-- The Go method `collectCustomQueries`.  A job is a query definition together
with the driver's answer to its query.  With no definition the method returns at
once.  Otherwise one goroutine per definition runs `collectCustomQuery`, and
`wg.Wait()` lets the method return only when every goroutine is done.
`collectCustomQuery` never reads the sink or the log, it only appends to them, so
a goroutine is the sequence of samples and the sequence of lines it appends;
the sink receives the samples of all goroutines in the order `sampleOrder`
schedules them and the log receives their lines in the order `lineOrder`
schedules them.
Modelled from the spec: each append of `types.Samples` is atomic ("the sample
sink is written concurrently by all tasks and must tolerate concurrent appends
without corruption or lost samples"), and so is each line of `lib/logger`. -/
def collectCustomQueries {V : Type} (toFloat64 : String → Except String V)
    (tbl : Char → Char) (sampleOrder lineOrder : List Nat)
    (jobs : List (CustomQuery × QueryRun)) (st : State V) : State V :=
  if jobs.length = 0 then st
  else
    let tasks := jobs.map (fun job => collectCustomQuery toFloat64 tbl job.2 job.1 ⟨[], []⟩)
    ⟨st.ss ++ interleave sampleOrder (tasks.map (fun t => t.ss)),
     st.log ++ interleave lineOrder (tasks.map (fun t => t.log))⟩

/-! ## Concrete instances of the two parameters -/

/-- A decimal numeral read exactly: `mantissa / 10 ^ scale`, negated when `neg`. -/
structure Decimal where
  neg : Bool
  mantissa : Nat
  scale : Nat
deriving DecidableEq, Repr

/-- The value of a list of decimal digits. -/
def digitsValue (ds : List Char) : Nat :=
  ds.foldl (fun acc d => 10 * acc + (d.toNat - '0'.toNat)) 0

/-- Modelled from the spec: `conv.ToFloat64` of `lib/conv`, which is not part of
the sources at hand.  The spec only says that a text that "is not numeric" fails
to convert; this instance accepts the plain decimal numerals (an optional sign,
digits, an optional fractional part) and rejects every other text. -/
def decimalToFloat64 (s : String) : Except String Decimal :=
  let body := match s.data with
    | '-' :: r => r
    | '+' :: r => r
    | cs => cs
  let neg := match s.data with
    | '-' :: _ => true
    | _ => false
  let intPart := body.takeWhile Char.isDigit
  let frac : Option (List Char) := match body.dropWhile Char.isDigit with
    | [] => some []
    | '.' :: f => if f.all Char.isDigit then some f else none
    | _ => none
  match frac with
  | some f =>
    if intPart.isEmpty && f.isEmpty then .error ("unparseable value " ++ s)
    else .ok ⟨neg, digitsValue (intPart ++ f), f.length⟩
  | none => .error ("unparseable value " ++ s)

/-- A small excerpt of the Unicode case table, used to run the model on
concrete inputs: `É` and the Kelvin sign have lower-case forms, every other
code point is its own. -/
def sampleCaseTable (r : Char) : Char :=
  if r = 'É' then 'é' else if r = Char.ofNat 0x212A then 'k' else r

/-! ## Reference description of what one row emits -/

/-- The name `parseRow` gives to every sample of a row. -/
def sampleName (tbl : Char → Char) (row : StrMap) (query : CustomQuery) : String :=
  if query.FieldToAppend = "" then query.Mesurement
  else query.Mesurement ++ "_" ++ cleanName tbl (mapIndex row query.FieldToAppend)

/-- The samples of a row read off the metric fields: one per field, up to the
first field that does not convert. -/
def rowSamples {V : Type} (toFloat64 : String → Except String V) (tbl : Char → Char)
    (row : StrMap) (query : CustomQuery) (labels : StrMap) : List String → List (Sample V)
  | [] => []
  | column :: rest =>
    match toFloat64 (mapIndex row column) with
    | .error _ => []
    | .ok value =>
      ⟨sampleName tbl row query, column, value, labels⟩
        :: rowSamples toFloat64 tbl row query labels rest

/-! ## Reference description of the name sanitizer -/

/-- A character that `cleanName` neither removes nor replaces: none of the
space, `(`, `)`, `/`, `*` and `%`. -/
def isPlain (c : Char) : Prop :=
  c ≠ ' ' ∧ c ≠ '(' ∧ c ≠ ')' ∧ c ≠ '/' ∧ c ≠ '*' ∧ c ≠ '%'

/-- What `cleanName` makes of one character. -/
def cleanRune (tbl : Char → Char) (c : Char) : List Char :=
  if c = ' ' then ['_']
  else if c = '(' ∨ c = ')' ∨ c = '/' ∨ c = '*' then []
  else if c = '%' then ['p', 'e', 'r', 'c', 'e', 'n', 't']
  else [unicodeToLower tbl c]

/-! ## The metric loop -/

section MetricLoop

variable {V : Type} (toFloat64 : String → Except String V) (tbl : Char → Char)
  (row : StrMap) (query : CustomQuery) (labels : StrMap)

theorem metricLoop_ss (cols : List String) (st : State V) :
    (metricLoop toFloat64 tbl row query labels cols st).1.ss
      = st.ss ++ rowSamples toFloat64 tbl row query labels cols := by
  induction cols generalizing st with
  | nil => simp [metricLoop, rowSamples]
  | cons c rest ih =>
    unfold metricLoop rowSamples
    cases hc : toFloat64 (mapIndex row c) with
    | error e => simp [State.Errorf]
    | ok v =>
      by_cases hf : query.FieldToAppend = ""
      · simp [hf, ih, State.AddMetric, sampleName]
      · simp [hf, ih, State.AddMetric, sampleName]

theorem metricLoop_err_none_iff (cols : List String) (st : State V) :
    (metricLoop toFloat64 tbl row query labels cols st).2 = none
      ↔ ∀ c ∈ cols, (toFloat64 (mapIndex row c)).toBool = true := by
  induction cols generalizing st with
  | nil => simp [metricLoop]
  | cons c rest ih =>
    unfold metricLoop
    cases hc : toFloat64 (mapIndex row c) with
    | error e => simp [hc, Except.toBool]
    | ok v =>
      by_cases hf : query.FieldToAppend = ""
      · simp [hf, ih, hc, Except.toBool]
      · simp [hf, ih, hc, Except.toBool]

theorem metricLoop_split (pre post : List String) (bad err : String) (st : State V)
    (hpre : ∀ c ∈ pre, (toFloat64 (mapIndex row c)).toBool = true)
    (hbad : toFloat64 (mapIndex row bad) = .error err) :
    (metricLoop toFloat64 tbl row query labels (pre ++ bad :: post) st).2 = some err
    ∧ (metricLoop toFloat64 tbl row query labels (pre ++ bad :: post) st).1.log
      = st.log ++ ["failed to convert field: " ++ bad ++ ", value: " ++ mapIndex row bad
          ++ ", error: " ++ err] := by
  induction pre generalizing st with
  | nil => simp [metricLoop, hbad, State.Errorf]
  | cons c rest ih =>
    have hc := hpre c (by simp)
    have hrest : ∀ c ∈ rest, (toFloat64 (mapIndex row c)).toBool = true :=
      fun d hd => hpre d (by simp [hd])
    simp only [List.cons_append]
    unfold metricLoop
    cases hv : toFloat64 (mapIndex row c) with
    | error e => simp [hv, Except.toBool] at hc
    | ok v =>
      by_cases hf : query.FieldToAppend = ""
      · simp only [hf, if_true]
        exact ih _ hrest
      · simp only [hf, if_false]
        exact ih _ hrest

theorem rowSamples_fields (cols : List String) :
    (rowSamples toFloat64 tbl row query labels cols).map (fun s => s.field)
      = cols.takeWhile (fun c => (toFloat64 (mapIndex row c)).toBool) := by
  induction cols with
  | nil => simp [rowSamples]
  | cons c rest ih =>
    unfold rowSamples
    cases hc : toFloat64 (mapIndex row c) with
    | error e => simp [List.takeWhile, hc, Except.toBool]
    | ok v => simp [List.takeWhile, hc, Except.toBool, ih]

theorem rowSamples_mem (cols : List String) (s : Sample V)
    (hs : s ∈ rowSamples toFloat64 tbl row query labels cols) :
    s.name = sampleName tbl row query ∧ s.labels = labels
      ∧ toFloat64 (mapIndex row s.field) = .ok s.value := by
  induction cols with
  | nil => simp [rowSamples] at hs
  | cons c rest ih =>
    unfold rowSamples at hs
    cases hc : toFloat64 (mapIndex row c) with
    | error e => simp [hc] at hs
    | ok v =>
      simp only [hc, List.mem_cons] at hs
      rcases hs with h | h
      · subst h; simp [hc]
      · exact ih h

end MetricLoop

/-! ## Maps and the label loop -/

theorem mapLookup_mapRemove (m : StrMap) (k name : String) :
    mapLookup (mapRemove m k) name = if name = k then none else mapLookup m name := by
  induction m with
  | nil => simp [mapLookup, mapRemove]
  | cons p rest ih =>
    obtain ⟨k1, v⟩ := p
    unfold mapRemove
    by_cases h1 : k1 = k
    · by_cases h2 : name = k
      · subst h2; simpa [h1] using ih
      · have h3 : ¬ k = name := fun h => h2 h.symm
        simp [h1, ih, h2, mapLookup, h3]
    · by_cases h3 : k1 = name
      · have h2 : ¬ name = k := fun h => h1 (h3.trans h)
        simp [h1, mapLookup, h3, h2]
      · simp [h1, mapLookup, h3, ih]

theorem mapLookup_mapStore (m : StrMap) (k v name : String) :
    mapLookup (mapStore m k v) name = if name = k then some v else mapLookup m name := by
  unfold mapStore
  by_cases h : name = k
  · subst h; simp [mapLookup]
  · have h2 : ¬ k = name := fun e => h e.symm
    simp [mapLookup, h, h2, mapLookup_mapRemove]

theorem mem_keys_mapRemove (m : StrMap) (k x : String)
    (h : x ∈ (mapRemove m k).map Prod.fst) : x ∈ m.map Prod.fst ∧ x ≠ k := by
  induction m with
  | nil => simp [mapRemove] at h
  | cons p rest ih =>
    obtain ⟨k1, v⟩ := p
    unfold mapRemove at h
    by_cases h1 : k1 = k
    · simp only [h1, if_true] at h
      have := ih h
      exact ⟨by simp [this.1], this.2⟩
    · simp only [h1, if_false, List.map_cons, List.mem_cons] at h
      rcases h with h | h
      · subst h; exact ⟨by simp, h1⟩
      · have := ih h
        exact ⟨by simp [this.1], this.2⟩

theorem mapRemove_keys_nodup (m : StrMap) (k : String) (h : (m.map Prod.fst).Nodup) :
    ((mapRemove m k).map Prod.fst).Nodup := by
  induction m with
  | nil => simp [mapRemove]
  | cons p rest ih =>
    obtain ⟨k1, v⟩ := p
    simp only [List.map_cons, List.nodup_cons] at h
    unfold mapRemove
    by_cases h1 : k1 = k
    · simpa [h1] using ih h.2
    · simp only [h1, if_false, List.map_cons, List.nodup_cons]
      exact ⟨fun hm => h.1 (mem_keys_mapRemove rest k k1 hm).1, ih h.2⟩

theorem mapStore_keys_nodup (m : StrMap) (k v : String) (h : (m.map Prod.fst).Nodup) :
    ((mapStore m k v).map Prod.fst).Nodup := by
  unfold mapStore
  simp only [List.map_cons, List.nodup_cons]
  exact ⟨fun hm => (mem_keys_mapRemove m k k hm).2 rfl, mapRemove_keys_nodup m k h⟩

theorem labelLoop_lookup (row : StrMap) (fields : List String) (acc : StrMap) (name : String) :
    mapLookup (labelLoop row fields acc) name
      = if name ∈ fields then
          ((mapLookup row name).map (fun v => stringsReplace v ' ' "_")).orElse
            (fun _ => mapLookup acc name)
        else mapLookup acc name := by
  induction fields generalizing acc with
  | nil => simp [labelLoop]
  | cons label rest ih =>
    unfold labelLoop
    cases hl : mapLookup row label with
    | none =>
      simp only [ih, List.mem_cons]
      by_cases h1 : name = label
      · subst h1; simp [hl]
      · simp [h1]
    | some lv =>
      simp only [ih, List.mem_cons, mapLookup_mapStore]
      by_cases h1 : name = label
      · subst h1; simp [hl]
      · simp [h1]

theorem labelLoop_keys_nodup (row : StrMap) (fields : List String) (acc : StrMap)
    (h : (acc.map Prod.fst).Nodup) : ((labelLoop row fields acc).map Prod.fst).Nodup := by
  induction fields generalizing acc with
  | nil => simpa [labelLoop] using h
  | cons label rest ih =>
    unfold labelLoop
    cases hl : mapLookup row label with
    | none => exact ih acc h
    | some lv => exact ih _ (mapStore_keys_nodup acc label _ h)

theorem stringsReplace_space_data (v : String) :
    (stringsReplace v ' ' "_").data = v.data.map (fun c => if c = ' ' then '_' else c) := by
  unfold stringsReplace
  show List.flatMap v.data _ = _
  induction v.data with
  | nil => rfl
  | cons c rest ih =>
    simp only [List.flatMap_cons, List.map_cons, ih]
    by_cases h : c = ' '
    · simp [h]
    · simp [h]

/-! ## Name sanitizer -/

theorem toNat_ofNat_small (n : Nat) (h : n < 0xd800) : (Char.ofNat n).toNat = n := by
  unfold Char.ofNat
  have hv : n.isValidChar := Or.inl h
  simp only [hv, dite_true, Char.ofNatAux, Char.toNat]
  rfl

theorem cleanName_data (tbl : Char → Char) (s : String) :
    (cleanName tbl s).data = s.data.flatMap (cleanRune tbl) := by
  unfold cleanName stringsReplace stringsToLower
  simp only [List.flatMap_assoc, List.map_flatMap]
  apply List.flatMap_congr
  intro c _
  unfold cleanRune
  by_cases h1 : c = ' '
  · subst h1; rfl
  by_cases h2 : c = '('
  · subst h2; rfl
  by_cases h3 : c = ')'
  · subst h3; rfl
  by_cases h4 : c = '/'
  · subst h4; rfl
  by_cases h5 : c = '*'
  · subst h5; rfl
  by_cases h6 : c = '%'
  · subst h6; rfl
  simp [h1, h2, h3, h4, h5, h6]

theorem isPlain_of_toNat (c : Char)
    (h : c.toNat ≠ 32 ∧ c.toNat ≠ 40 ∧ c.toNat ≠ 41 ∧ c.toNat ≠ 47 ∧ c.toNat ≠ 42
      ∧ c.toNat ≠ 37) : isPlain c := by
  obtain ⟨h1, h2, h3, h4, h5, h6⟩ := h
  refine ⟨?_, ?_, ?_, ?_, ?_, ?_⟩ <;> intro e <;> subst e <;> simp_all

theorem unicodeToLower_plain_fixed (tbl : Char → Char)
    (hplain : ∀ r : Char, 0x7F < r.toNat → isPlain (tbl r))
    (hfixed : ∀ r : Char, 0x7F < r.toNat → unicodeToLower tbl (tbl r) = tbl r)
    (c : Char) (hc : isPlain c) :
    isPlain (unicodeToLower tbl c)
      ∧ unicodeToLower tbl (unicodeToLower tbl c) = unicodeToLower tbl c := by
  have eA : 'A'.toNat = 65 := rfl
  have eZ : 'Z'.toNat = 90 := rfl
  have ea : 'a'.toNat - 'A'.toNat = 32 := rfl
  by_cases hascii : c.toNat ≤ 0x7F
  · by_cases hupper : 'A'.toNat ≤ c.toNat ∧ c.toNat ≤ 'Z'.toNat
    · have hl : unicodeToLower tbl c = Char.ofNat (c.toNat + 32) := by
        simp only [unicodeToLower, hascii, hupper, if_true, ea, and_self]
      have hn : (unicodeToLower tbl c).toNat = c.toNat + 32 := by
        rw [hl]; exact toNat_ofNat_small _ (by omega)
      rw [eA, eZ] at hupper
      refine ⟨isPlain_of_toNat _ (by omega), ?_⟩
      have h1 : (unicodeToLower tbl c).toNat ≤ 0x7F := by omega
      have h2 : ¬ ('A'.toNat ≤ (unicodeToLower tbl c).toNat
          ∧ (unicodeToLower tbl c).toNat ≤ 'Z'.toNat) := by
        rw [eA, eZ]; omega
      generalize unicodeToLower tbl c = d at h1 h2
      simp only [unicodeToLower, h1, h2, if_true, if_false]
    · have hl : unicodeToLower tbl c = c := by
        simp only [unicodeToLower, hascii, hupper, if_true, if_false]
      rw [hl]
      exact ⟨hc, hl⟩
  · have hl : unicodeToLower tbl c = tbl c := by
      simp only [unicodeToLower, hascii, if_false]
    rw [hl]
    exact ⟨hplain c (by omega), hfixed c (by omega)⟩

theorem cleanRune_of_plain_fixed (tbl : Char → Char) (d : Char) (hd : isPlain d)
    (hfix : unicodeToLower tbl d = d) : cleanRune tbl d = [d] := by
  obtain ⟨h1, h2, h3, h4, h5, h6⟩ := hd
  simp [cleanRune, h1, h2, h3, h4, h5, h6, hfix]

theorem cleanRune_mem (tbl : Char → Char)
    (hplain : ∀ r : Char, 0x7F < r.toNat → isPlain (tbl r))
    (hfixed : ∀ r : Char, 0x7F < r.toNat → unicodeToLower tbl (tbl r) = tbl r)
    (c d : Char) (hd : d ∈ cleanRune tbl c) :
    isPlain d ∧ unicodeToLower tbl d = d := by
  unfold cleanRune at hd
  by_cases h1 : c = ' '
  · simp only [h1, if_true, List.mem_singleton] at hd
    subst hd
    exact ⟨by unfold isPlain; decide, rfl⟩
  by_cases h2 : c = '(' ∨ c = ')' ∨ c = '/' ∨ c = '*'
  · simp [h1, h2] at hd
  by_cases h6 : c = '%'
  · simp only [h1, h2, h6, if_true, if_false] at hd
    have hall : ∀ x ∈ ['p', 'e', 'r', 'c', 'e', 'n', 't'],
        isPlain x ∧ unicodeToLower tbl x = x := by
      intro x hx
      simp only [List.mem_cons, List.mem_singleton, List.not_mem_nil, or_false] at hx
      rcases hx with e | e | e | e | e | e | e <;> subst e <;>
        exact ⟨by unfold isPlain; decide, rfl⟩
    exact hall d hd
  · simp only [h1, h2, h6, if_false, List.mem_singleton] at hd
    subst hd
    have hc : isPlain c := by
      simp only [not_or] at h2
      exact ⟨h1, h2.1, h2.2.1, h2.2.2.1, h2.2.2.2, h6⟩
    exact unicodeToLower_plain_fixed tbl hplain hfixed c hc

theorem cleanName_mem (tbl : Char → Char)
    (hplain : ∀ r : Char, 0x7F < r.toNat → isPlain (tbl r))
    (hfixed : ∀ r : Char, 0x7F < r.toNat → unicodeToLower tbl (tbl r) = tbl r)
    (s : String) (d : Char) (hd : d ∈ (cleanName tbl s).data) :
    isPlain d ∧ unicodeToLower tbl d = d := by
  rw [cleanName_data, List.mem_flatMap] at hd
  obtain ⟨c, _, hdc⟩ := hd
  exact cleanRune_mem tbl hplain hfixed c d hdc

theorem flatMap_eq_self {α : Type} (f : α → List α) (l : List α)
    (h : ∀ x ∈ l, f x = [x]) : l.flatMap f = l := by
  induction l with
  | nil => rfl
  | cons x rest ih =>
    rw [List.flatMap_cons, h x (by simp), ih (fun y hy => h y (by simp [hy]))]
    rfl

theorem map_eq_self {α : Type} (f : α → α) (l : List α)
    (h : ∀ x ∈ l, f x = x) : l.map f = l := by
  induction l with
  | nil => rfl
  | cons x rest ih =>
    rw [List.map_cons, h x (by simp), ih (fun y hy => h y (by simp [hy]))]

theorem sampleCaseTable_plain (r : Char) (h : 0x7F < r.toNat) : isPlain (sampleCaseTable r) := by
  unfold sampleCaseTable
  by_cases h1 : r = 'É'
  · rw [if_pos h1]; unfold isPlain; decide
  by_cases h2 : r = Char.ofNat 0x212A
  · rw [if_neg h1, if_pos h2]; unfold isPlain; decide
  rw [if_neg h1, if_neg h2]
  exact isPlain_of_toNat r (by omega)

theorem sampleCaseTable_fixed (r : Char) (h : 0x7F < r.toNat) :
    unicodeToLower sampleCaseTable (sampleCaseTable r) = sampleCaseTable r := by
  by_cases h1 : r = 'É'
  · subst h1; decide
  by_cases h2 : r = Char.ofNat 0x212A
  · subst h2; decide
  have hr : sampleCaseTable r = r := by
    unfold sampleCaseTable; rw [if_neg h1, if_neg h2]
  have hna : ¬ r.toNat ≤ 0x7F := by omega
  rw [hr]
  simp only [unicodeToLower, hna, if_false, hr]

/-- C5: `cleanName` is idempotent, for every case table whose lower-case forms
of the non-ASCII code points are plain characters that lower-casing leaves
unchanged (as the lower-case forms of the Unicode table are). -/
theorem cleanName_idempotent (tbl : Char → Char)
    (hplain : ∀ r : Char, 0x7F < r.toNat → isPlain (tbl r))
    (hfixed : ∀ r : Char, 0x7F < r.toNat → unicodeToLower tbl (tbl r) = tbl r)
    (s : String) :
    cleanName tbl (cleanName tbl s) = cleanName tbl s := by
  apply String.ext
  rw [cleanName_data tbl (cleanName tbl s)]
  apply flatMap_eq_self
  intro d hd
  have h := cleanName_mem tbl hplain hfixed s d hd
  exact cleanRune_of_plain_fixed tbl d h.1 h.2

/-- C5 (witness): the sample case table and a name with every kind of
character. -/
theorem cleanName_idempotent_witness :
    (∀ r : Char, 0x7F < r.toNat → isPlain (sampleCaseTable r))
    ∧ (∀ r : Char, 0x7F < r.toNat →
        unicodeToLower sampleCaseTable (sampleCaseTable r) = sampleCaseTable r)
    ∧ cleanName sampleCaseTable (cleanName sampleCaseTable "Débit É/S (%) * Total")
      = cleanName sampleCaseTable "Débit É/S (%) * Total" :=
  ⟨sampleCaseTable_plain, sampleCaseTable_fixed,
    cleanName_idempotent sampleCaseTable sampleCaseTable_plain sampleCaseTable_fixed
      "Débit É/S (%) * Total"⟩

/-- C6: the output of `cleanName` contains no space, `(`, `)`, `/`, `*` or `%`,
and lower-casing it again changes nothing; the empty string is sanitized to the
empty string.  This holds for every case table whose lower-case forms of the
non-ASCII code points are plain characters that lower-casing leaves unchanged. -/
theorem cleanName_output_plain_lowercase (tbl : Char → Char)
    (hplain : ∀ r : Char, 0x7F < r.toNat → isPlain (tbl r))
    (hfixed : ∀ r : Char, 0x7F < r.toNat → unicodeToLower tbl (tbl r) = tbl r)
    (s : String) :
    (∀ c ∈ (cleanName tbl s).data,
        c ≠ '(' ∧ c ≠ ')' ∧ c ≠ '/' ∧ c ≠ '*' ∧ c ≠ ' ' ∧ c ≠ '%')
    ∧ stringsToLower tbl (cleanName tbl s) = cleanName tbl s
    ∧ cleanName tbl "" = "" := by
  refine ⟨?_, ?_, rfl⟩
  · intro c hc
    obtain ⟨h1, h2, h3, h4, h5, h6⟩ := (cleanName_mem tbl hplain hfixed s c hc).1
    exact ⟨h2, h3, h4, h5, h1, h6⟩
  · apply String.ext
    show (cleanName tbl s).data.map (unicodeToLower tbl) = (cleanName tbl s).data
    exact map_eq_self _ _ (fun d hd => (cleanName_mem tbl hplain hfixed s d hd).2)

/-- C6 (witness): the sample case table and a name with every kind of
character. -/
theorem cleanName_output_plain_lowercase_witness :
    (∀ r : Char, 0x7F < r.toNat → isPlain (sampleCaseTable r))
    ∧ (∀ r : Char, 0x7F < r.toNat →
        unicodeToLower sampleCaseTable (sampleCaseTable r) = sampleCaseTable r)
    ∧ (∀ c ∈ (cleanName sampleCaseTable "Débit É/S (%) * Total").data,
        c ≠ '(' ∧ c ≠ ')' ∧ c ≠ '/' ∧ c ≠ '*' ∧ c ≠ ' ' ∧ c ≠ '%')
    ∧ stringsToLower sampleCaseTable (cleanName sampleCaseTable "Débit É/S (%) * Total")
      = cleanName sampleCaseTable "Débit É/S (%) * Total"
    ∧ cleanName sampleCaseTable "" = "" :=
  ⟨sampleCaseTable_plain, sampleCaseTable_fixed,
    cleanName_output_plain_lowercase sampleCaseTable sampleCaseTable_plain
      sampleCaseTable_fixed "Débit É/S (%) * Total"⟩

/-! ## Row mapper: the claims -/

/-- C1 (amended): `parseRow` stops at the first metric field that does not
convert.  When the metric fields are `pre ++ bad :: post`, every field of `pre`
converts and `bad` does not, the row emits exactly one sample per field of
`pre`, in order and with the converted value, emits nothing for `bad` nor for any
field of `post`, reports exactly one diagnostic line, which names `bad`, its raw
text and the conversion error, and returns the conversion error of `bad`. -/
theorem parseRow_stops_at_first_failure {V : Type} (toFloat64 : String → Except String V)
    (tbl : Char → Char) (row : StrMap) (query : CustomQuery) (st : State V)
    (pre post : List String) (bad err : String)
    (hsplit : query.MetricFields = pre ++ bad :: post)
    (hpre : ∀ c ∈ pre, (toFloat64 (mapIndex row c)).toBool = true)
    (hbad : toFloat64 (mapIndex row bad) = .error err) :
    (parseRow toFloat64 tbl row query st).2 = some err
    ∧ (parseRow toFloat64 tbl row query st).1.log
      = st.log ++ ["failed to convert field: " ++ bad ++ ", value: " ++ mapIndex row bad
          ++ ", error: " ++ err]
    ∧ ∃ new : List (Sample V),
        (parseRow toFloat64 tbl row query st).1.ss = st.ss ++ new
        ∧ new.map (fun s => s.field) = pre
        ∧ ∀ s ∈ new, toFloat64 (mapIndex row s.field) = .ok s.value := by
  unfold parseRow
  simp only [hsplit]
  have hsp := metricLoop_split toFloat64 tbl row query (labelLoop row query.LabelFields [])
    pre post bad err st hpre hbad
  refine ⟨hsp.1, hsp.2, ?_⟩
  refine ⟨_, metricLoop_ss toFloat64 tbl row query _ _ st, ?_, ?_⟩
  · have h1 : pre.takeWhile (fun c => (toFloat64 (mapIndex row c)).toBool) = pre :=
      List.takeWhile_eq_self_iff.mpr hpre
    rw [rowSamples_fields, List.takeWhile_append, h1]
    simp [List.takeWhile, hbad, Except.toBool]
  · intro s hs
    exact (rowSamples_mem toFloat64 tbl row query _ _ s hs).2.2

/-- C1 (witness): metric fields `[b, a]` with `b = "42.5"` and `a = "abc"`. -/
theorem parseRow_stops_at_first_failure_witness :
    (parseRow decimalToFloat64 sampleCaseTable [("a", "abc"), ("b", "42.5")]
        ⟨"m", ["b", "a"], [], "", 1000000000, "select a, b"⟩ ⟨[], []⟩).2
      = some "unparseable value abc"
    ∧ (parseRow decimalToFloat64 sampleCaseTable [("a", "abc"), ("b", "42.5")]
        ⟨"m", ["b", "a"], [], "", 1000000000, "select a, b"⟩ ⟨[], []⟩).1.log
      = [] ++ ["failed to convert field: " ++ "a" ++ ", value: "
          ++ mapIndex [("a", "abc"), ("b", "42.5")] "a"
          ++ ", error: " ++ "unparseable value abc"]
    ∧ ∃ new : List (Sample Decimal),
        (parseRow decimalToFloat64 sampleCaseTable [("a", "abc"), ("b", "42.5")]
          ⟨"m", ["b", "a"], [], "", 1000000000, "select a, b"⟩ ⟨[], []⟩).1.ss = [] ++ new
        ∧ new.map (fun s => s.field) = ["b"]
        ∧ ∀ s ∈ new, decimalToFloat64
            (mapIndex [("a", "abc"), ("b", "42.5")] s.field) = .ok s.value :=
  parseRow_stops_at_first_failure decimalToFloat64 sampleCaseTable
    [("a", "abc"), ("b", "42.5")] ⟨"m", ["b", "a"], [], "", 1000000000, "select a, b"⟩
    ⟨[], []⟩ ["b"] [] "a" "unparseable value abc" rfl (by decide) rfl

/-- C1 (counterexample): with metric fields `[a, b]`, `a = "abc"` and
`b = "42.5"`, the text of `b` converts, yet the row emits no sample at all: the
error of `a` ends the row. -/
theorem parseRow_failure_drops_later_fields :
    (decimalToFloat64 "abc").toBool = false
    ∧ (decimalToFloat64 "42.5").toBool = true
    ∧ (parseRow decimalToFloat64 sampleCaseTable [("a", "abc"), ("b", "42.5")]
        ⟨"m", ["a", "b"], [], "", 1000000000, "select a, b"⟩ ⟨[], []⟩)
      = (⟨[], ["failed to convert field: a, value: abc, error: unparseable value abc"]⟩,
          some "unparseable value abc") := by
  decide

/-- C7: when the field to append is unset (the empty string), every sample a
row emits is named exactly by the measurement name of the query. -/
theorem parseRow_name_without_suffix {V : Type} (toFloat64 : String → Except String V)
    (tbl : Char → Char) (row : StrMap) (query : CustomQuery) (st : State V)
    (hunset : query.FieldToAppend = "") :
    ∃ new : List (Sample V),
      (parseRow toFloat64 tbl row query st).1.ss = st.ss ++ new
      ∧ ∀ s ∈ new, s.name = query.Mesurement := by
  refine ⟨_, metricLoop_ss toFloat64 tbl row query _ _ st, ?_⟩
  intro s hs
  have h := (rowSamples_mem toFloat64 tbl row query _ _ s hs).1
  simpa [sampleName, hunset] using h

/-- C7 (witness): a query without field to append and a row of two metrics. -/
theorem parseRow_name_without_suffix_witness :
    ∃ new : List (Sample Decimal),
      (parseRow decimalToFloat64 sampleCaseTable [("a", "1"), ("b", "42.5")]
        ⟨"m", ["a", "b"], [], "", 1000000000, "select a, b"⟩ ⟨[], []⟩).1.ss = [] ++ new
      ∧ ∀ s ∈ new, s.name = "m" :=
  parseRow_name_without_suffix decimalToFloat64 sampleCaseTable [("a", "1"), ("b", "42.5")]
    ⟨"m", ["a", "b"], [], "", 1000000000, "select a, b"⟩ ⟨[], []⟩ rfl

/-- C10: `parseRow` returns an error exactly when some metric field's raw text
(`row[column]`, the empty string for an absent column) fails to convert.  The
samples it emits are those of the metric fields before the first failing one, in
configured order, each with the converted value of its field; when it returns no
error they are one sample per configured metric field, in configured order. -/
theorem parseRow_error_iff_and_emitted {V : Type} (toFloat64 : String → Except String V)
    (tbl : Char → Char) (row : StrMap) (query : CustomQuery) (st : State V) :
    ((parseRow toFloat64 tbl row query st).2.isSome = true
        ↔ ∃ c ∈ query.MetricFields, (toFloat64 (mapIndex row c)).toBool = false)
    ∧ (∃ new : List (Sample V),
        (parseRow toFloat64 tbl row query st).1.ss = st.ss ++ new
        ∧ new.map (fun s => s.field)
            = query.MetricFields.takeWhile (fun c => (toFloat64 (mapIndex row c)).toBool)
        ∧ (∀ s ∈ new, toFloat64 (mapIndex row s.field) = .ok s.value)
        ∧ ((parseRow toFloat64 tbl row query st).2 = none
            → new.map (fun s => s.field) = query.MetricFields)) := by
  have hnone := metricLoop_err_none_iff toFloat64 tbl row query
    (labelLoop row query.LabelFields []) query.MetricFields st
  refine ⟨?_, ?_⟩
  · unfold parseRow
    rw [← Option.not_isSome_iff_eq_none] at hnone
    constructor
    · intro h
      by_contra hcon
      push_neg at hcon
      have hall : ∀ c ∈ query.MetricFields, (toFloat64 (mapIndex row c)).toBool = true := by
        intro c hc
        simpa using hcon c hc
      exact (hnone.mpr hall) h
    · rintro ⟨c, hc, hfail⟩
      by_contra hcon
      have := hnone.mp hcon c hc
      simp [hfail] at this
  · refine ⟨_, metricLoop_ss toFloat64 tbl row query _ _ st, rowSamples_fields _ _ _ _ _ _, ?_, ?_⟩
    · intro s hs
      exact (rowSamples_mem toFloat64 tbl row query _ _ s hs).2.2
    · intro h
      rw [rowSamples_fields]
      exact List.takeWhile_eq_self_iff.mpr (hnone.mp h)

/-- C4: every sample a row emits carries the one label map built by the label
loop.  That map has one binding per key; it binds exactly the configured label
fields that are keys of the row (an absent field gets no binding), each to the
row's value with the spaces replaced by underscores; and this replacement keeps
the length and every character other than a space. -/
theorem parseRow_labels {V : Type} (toFloat64 : String → Except String V)
    (tbl : Char → Char) (row : StrMap) (query : CustomQuery) (st : State V) :
    (∃ new : List (Sample V),
        (parseRow toFloat64 tbl row query st).1.ss = st.ss ++ new
        ∧ ∀ s ∈ new, s.labels = labelLoop row query.LabelFields [])
    ∧ ((labelLoop row query.LabelFields []).map Prod.fst).Nodup
    ∧ (∀ name : String, mapLookup (labelLoop row query.LabelFields []) name
        = if name ∈ query.LabelFields then
            (mapLookup row name).map (fun v => stringsReplace v ' ' "_")
          else none)
    ∧ (∀ v : String, (stringsReplace v ' ' "_").length = v.length
        ∧ ∀ (i : Nat) (c : Char), v.data[i]? = some c →
            (stringsReplace v ' ' "_").data[i]? = some (if c = ' ' then '_' else c)) := by
  refine ⟨⟨_, metricLoop_ss toFloat64 tbl row query _ _ st, ?_⟩, ?_, ?_, ?_⟩
  · intro s hs
    exact (rowSamples_mem toFloat64 tbl row query _ _ s hs).2.1
  · exact labelLoop_keys_nodup row _ [] (by simp)
  · intro name
    rw [labelLoop_lookup]
    by_cases h : name ∈ query.LabelFields
    · cases hr : mapLookup row name <;> simp [h, mapLookup]
    · simp [h, mapLookup]
  · intro v
    refine ⟨?_, ?_⟩
    · show (stringsReplace v ' ' "_").data.length = v.data.length
      rw [stringsReplace_space_data, List.length_map]
    · intro i c hc
      simp [stringsReplace_space_data, hc]

/-! ## Name of the samples when a field is appended -/

/-- C2 (amended): `cleanName` keeps the colon, so `"Disk (C:) % Used"` is
sanitized to `"disk_c:_percent_used"`; for a query whose field to append is set
and a row holding that text in the column, every sample of the row is named
`measurement + "_disk_c:_percent_used"`, and when all metric fields convert
there is one such sample per metric field. -/
theorem parseRow_name_with_disk_suffix {V : Type} (toFloat64 : String → Except String V)
    (tbl : Char → Char) (row : StrMap) (query : CustomQuery) (st : State V)
    (hset : query.FieldToAppend ≠ "")
    (hrow : mapLookup row query.FieldToAppend = some "Disk (C:) % Used") :
    cleanName tbl "Disk (C:) % Used" = "disk_c:_percent_used"
    ∧ ∃ new : List (Sample V),
        (parseRow toFloat64 tbl row query st).1.ss = st.ss ++ new
        ∧ (∀ s ∈ new, s.name = query.Mesurement ++ "_disk_c:_percent_used")
        ∧ ((∀ c ∈ query.MetricFields, (toFloat64 (mapIndex row c)).toBool = true)
            → new.map (fun s => s.field) = query.MetricFields) := by
  have hclean : cleanName tbl "Disk (C:) % Used" = "disk_c:_percent_used" := rfl
  refine ⟨hclean, _, metricLoop_ss toFloat64 tbl row query _ _ st, ?_, ?_⟩
  · intro s hs
    have h := (rowSamples_mem toFloat64 tbl row query _ _ s hs).1
    rw [h]
    simp only [sampleName, hset, if_false, mapIndex, hrow, Option.getD_some, hclean]
    rw [String.append_assoc]
    rfl
  · intro hall
    rw [rowSamples_fields]
    exact List.takeWhile_eq_self_iff.mpr hall

/-- C2 (witness): measurement `measurement`, field to append `c`, one metric. -/
theorem parseRow_name_with_disk_suffix_witness :
    cleanName sampleCaseTable "Disk (C:) % Used" = "disk_c:_percent_used"
    ∧ ∃ new : List (Sample Decimal),
        (parseRow decimalToFloat64 sampleCaseTable [("c", "Disk (C:) % Used"), ("v", "42.5")]
          ⟨"measurement", ["v"], [], "c", 1000000000, "select c, v"⟩ ⟨[], []⟩).1.ss = [] ++ new
        ∧ (∀ s ∈ new, s.name = "measurement" ++ "_disk_c:_percent_used")
        ∧ ((∀ c ∈ ["v"], (decimalToFloat64
              (mapIndex [("c", "Disk (C:) % Used"), ("v", "42.5")] c)).toBool = true)
            → new.map (fun s => s.field) = ["v"]) :=
  parseRow_name_with_disk_suffix decimalToFloat64 sampleCaseTable
    [("c", "Disk (C:) % Used"), ("v", "42.5")]
    ⟨"measurement", ["v"], [], "c", 1000000000, "select c, v"⟩ ⟨[], []⟩ (by decide) rfl

/-- C2 (counterexample): the sanitized text is not `disk_c_percent_used`, and
the one sample of the row is named `measurement_disk_c:_percent_used`. -/
theorem cleanName_keeps_colon :
    decide (cleanName sampleCaseTable "Disk (C:) % Used" = "disk_c_percent_used") = false
    ∧ (parseRow decimalToFloat64 sampleCaseTable [("c", "Disk (C:) % Used"), ("v", "42.5")]
        ⟨"measurement", ["v"], [], "c", 1000000000, "select c, v"⟩ ⟨[], []⟩).1.ss
      = [⟨"measurement_disk_c:_percent_used", "v", ⟨false, 425, 1⟩, []⟩] := by
  decide

/-! ## Column lookups -/

theorem foldl_mapStore_lookup (tbl : Char → Char) (cvs : List (String × String))
    (acc : StrMap) (f : String) :
    mapLookup (cvs.foldl (fun row cv => mapStore row (stringsToLower tbl cv.1) cv.2) acc) f
      = ((cvs.reverse.find? (fun cv => decide (stringsToLower tbl cv.1 = f))).map Prod.snd).orElse
          (fun _ => mapLookup acc f) := by
  induction cvs generalizing acc with
  | nil => simp
  | cons cv rest ih =>
    simp only [List.foldl_cons, ih, List.reverse_cons, List.find?_append, mapLookup_mapStore]
    cases hfind : rest.reverse.find? (fun cv => decide (stringsToLower tbl cv.1 = f)) with
    | some p => simp
    | none =>
      by_cases h : stringsToLower tbl cv.1 = f
      · simp [List.find?, h]
      · have h2 : ¬ f = stringsToLower tbl cv.1 := fun e => h e.symm
        simp [List.find?, h, h2]

/-- C3 (amended): only the column names are lower-cased.  In the row that
`collectCustomQuery` builds from the column names and the raw values, the lookup
of a configured name `f` finds the value of the last column whose lower-cased
name is `f` itself, and finds nothing (the empty string for `row[f]`) when no
column has `f` as its lower-cased name; `f` is looked up as configured. -/
theorem materializeRow_lookup (tbl : Char → Char) (cols vals : List String) (f : String) :
    mapLookup (materializeRow tbl cols vals) f
      = ((cols.zip vals).reverse.find?
          (fun cv => decide (stringsToLower tbl cv.1 = f))).map Prod.snd
    ∧ mapIndex (materializeRow tbl cols vals) f
      = (((cols.zip vals).reverse.find?
          (fun cv => decide (stringsToLower tbl cv.1 = f))).map Prod.snd).getD "" := by
  have h : mapLookup (materializeRow tbl cols vals) f
      = ((cols.zip vals).reverse.find?
          (fun cv => decide (stringsToLower tbl cv.1 = f))).map Prod.snd := by
    unfold materializeRow
    rw [foldl_mapStore_lookup]
    cases (cols.zip vals).reverse.find? (fun cv => decide (stringsToLower tbl cv.1 = f)) <;>
      simp [mapLookup]
  exact ⟨h, by rw [mapIndex, h]⟩

/-- C3 (counterexample): the result column `Host` and the configured label
field `Host` are the same name, yet the lookup of `Host` finds nothing and the
sample of the row has no label; the label field `host` finds the value. -/
theorem lookup_of_capitalized_name_fails :
    mapLookup (materializeRow sampleCaseTable ["Host", "v"] ["db1", "1"]) "Host" = none
    ∧ mapLookup (materializeRow sampleCaseTable ["Host", "v"] ["db1", "1"]) "host" = some "db1"
    ∧ collectCustomQuery decimalToFloat64 sampleCaseTable
        ⟨false, none, .ok ["Host", "v"], [.ok ["db1", "1"]]⟩
        ⟨"m", ["v"], ["Host"], "", 1000000000, "select Host, v"⟩ ⟨[], []⟩
      = ⟨[⟨"m", "v", ⟨false, 1, 0⟩, []⟩], []⟩ := by
  decide

/-! ## Query executor -/

section Executor

variable {V : Type} (toFloat64 : String → Except String V) (tbl : Char → Char)

theorem metricLoop_frame (row : StrMap) (query : CustomQuery) (labels : StrMap)
    (cols : List String) (ss0 ss : List (Sample V)) (log0 log : List String) :
    metricLoop toFloat64 tbl row query labels cols ⟨ss0 ++ ss, log0 ++ log⟩
      = (⟨ss0 ++ (metricLoop toFloat64 tbl row query labels cols ⟨ss, log⟩).1.ss,
          log0 ++ (metricLoop toFloat64 tbl row query labels cols ⟨ss, log⟩).1.log⟩,
         (metricLoop toFloat64 tbl row query labels cols ⟨ss, log⟩).2) := by
  induction cols generalizing ss log with
  | nil => simp [metricLoop]
  | cons c rest ih =>
    unfold metricLoop
    cases hc : toFloat64 (mapIndex row c) with
    | error e => simp [State.Errorf, List.append_assoc]
    | ok v =>
      by_cases hf : query.FieldToAppend = ""
      · simp only [hf, if_true, State.AddMetric, List.append_assoc]
        exact ih _ _
      · simp only [hf, if_false, State.AddMetric, List.append_assoc]
        exact ih _ _

theorem parseRow_frame (row : StrMap) (query : CustomQuery) (st : State V) :
    parseRow toFloat64 tbl row query st
      = (⟨st.ss ++ (parseRow toFloat64 tbl row query ⟨[], []⟩).1.ss,
          st.log ++ (parseRow toFloat64 tbl row query ⟨[], []⟩).1.log⟩,
         (parseRow toFloat64 tbl row query ⟨[], []⟩).2) := by
  unfold parseRow
  have h := metricLoop_frame toFloat64 tbl row query (labelLoop row query.LabelFields [])
    query.MetricFields st.ss [] st.log []
  simpa using h

theorem rowsLoop_all_scanned (query : CustomQuery) (cols : List String)
    (rows : List (List String)) (st : State V) :
    rowsLoop toFloat64 tbl query cols (rows.map Except.ok) st
      = ⟨st.ss ++ rows.flatMap (fun vals =>
            (parseRow toFloat64 tbl (materializeRow tbl cols vals) query ⟨[], []⟩).1.ss),
         st.log ++ rows.flatMap (fun vals =>
            (parseRow toFloat64 tbl (materializeRow tbl cols vals) query ⟨[], []⟩).1.log
              ++ match (parseRow toFloat64 tbl (materializeRow tbl cols vals) query ⟨[], []⟩).2 with
                 | some err => ["failed to parse row: " ++ err ++ ", sql: " ++ query.Request]
                 | none => [])⟩ := by
  induction rows generalizing st with
  | nil => simp [rowsLoop]
  | cons vals rest ih =>
    simp only [List.map_cons, List.flatMap_cons]
    unfold rowsLoop
    dsimp only
    rw [parseRow_frame toFloat64 tbl (materializeRow tbl cols vals) query st]
    cases hr : (parseRow toFloat64 tbl (materializeRow tbl cols vals) query ⟨[], []⟩).2 with
    | none => simp [ih, List.append_assoc]
    | some err => simp [ih, State.Errorf, List.append_assoc]

end Executor

/-- C8: an error of `parseRow` on one row does not end the loop over the rows.
When the query ran (no deadline exceeded, no query error, the columns known) and
every row was scanned, each row, in order, is turned into a map with lower-cased
column names and handed to `parseRow`: the samples added to the sink are the
concatenation, in row order, of what `parseRow` emits for each row, and the log
gains, per row, the lines of `parseRow` followed by one line
`failed to parse row` when `parseRow` returned an error. -/
theorem collectCustomQuery_continues_after_row_error {V : Type}
    (toFloat64 : String → Except String V) (tbl : Char → Char) (run : QueryRun)
    (query : CustomQuery) (st : State V) (cols : List String) (rows : List (List String))
    (hdeadline : run.deadlineExceeded = false) (hquery : run.queryErr = none)
    (hcols : run.columns = .ok cols) (hscans : run.scans = rows.map Except.ok) :
    (collectCustomQuery toFloat64 tbl run query st).ss
      = st.ss ++ rows.flatMap (fun vals =>
          (parseRow toFloat64 tbl (materializeRow tbl cols vals) query ⟨[], []⟩).1.ss)
    ∧ (collectCustomQuery toFloat64 tbl run query st).log
      = st.log ++ rows.flatMap (fun vals =>
          (parseRow toFloat64 tbl (materializeRow tbl cols vals) query ⟨[], []⟩).1.log
            ++ match (parseRow toFloat64 tbl (materializeRow tbl cols vals) query ⟨[], []⟩).2 with
               | some err => ["failed to parse row: " ++ err ++ ", sql: " ++ query.Request]
               | none => []) := by
  unfold collectCustomQuery
  simp only [hdeadline, hquery, hcols, hscans, rowsLoop_all_scanned]
  simp

/-- C8 (witness): three rows, the first and the last of which fail to map. -/
theorem collectCustomQuery_continues_after_row_error_witness :
    (collectCustomQuery decimalToFloat64 sampleCaseTable
        ⟨false, none, .ok ["A", "B"], [.ok ["abc", "1"], .ok ["2", "42.5"], .ok ["3", ""]]⟩
        ⟨"m", ["a", "b"], [], "", 1000000000, "select A, B"⟩ ⟨[], []⟩).ss
      = [] ++ [["abc", "1"], ["2", "42.5"], ["3", ""]].flatMap (fun vals =>
          (parseRow decimalToFloat64 sampleCaseTable
            (materializeRow sampleCaseTable ["A", "B"] vals)
            ⟨"m", ["a", "b"], [], "", 1000000000, "select A, B"⟩ ⟨[], []⟩).1.ss)
    ∧ (collectCustomQuery decimalToFloat64 sampleCaseTable
        ⟨false, none, .ok ["A", "B"], [.ok ["abc", "1"], .ok ["2", "42.5"], .ok ["3", ""]]⟩
        ⟨"m", ["a", "b"], [], "", 1000000000, "select A, B"⟩ ⟨[], []⟩).log
      = [] ++ [["abc", "1"], ["2", "42.5"], ["3", ""]].flatMap (fun vals =>
          (parseRow decimalToFloat64 sampleCaseTable
            (materializeRow sampleCaseTable ["A", "B"] vals)
            ⟨"m", ["a", "b"], [], "", 1000000000, "select A, B"⟩ ⟨[], []⟩).1.log
            ++ match (parseRow decimalToFloat64 sampleCaseTable
                (materializeRow sampleCaseTable ["A", "B"] vals)
                ⟨"m", ["a", "b"], [], "", 1000000000, "select A, B"⟩ ⟨[], []⟩).2 with
               | some err => ["failed to parse row: " ++ err ++ ", sql: "
                   ++ (⟨"m", ["a", "b"], [], "", 1000000000, "select A, B"⟩ : CustomQuery).Request]
               | none => []) :=
  collectCustomQuery_continues_after_row_error decimalToFloat64 sampleCaseTable
    ⟨false, none, .ok ["A", "B"], [.ok ["abc", "1"], .ok ["2", "42.5"], .ok ["3", ""]]⟩
    ⟨"m", ["a", "b"], [], "", 1000000000, "select A, B"⟩ ⟨[], []⟩ ["A", "B"]
    [["abc", "1"], ["2", "42.5"], ["3", ""]] rfl rfl rfl rfl

/-! ## Query dispatcher -/

theorem flatten_perm_of_getElem? {α : Type} (tasks : List (List α)) (i : Nat) (x : α)
    (xs : List α) (h : tasks[i]? = some (x :: xs)) :
    tasks.flatten.Perm (x :: (tasks.set i xs).flatten) := by
  induction tasks generalizing i with
  | nil => simp at h
  | cons t rest ih =>
    cases i with
    | zero =>
      simp only [List.getElem?_cons_zero, Option.some.injEq] at h
      subst h
      simp
    | succ j =>
      simp only [List.getElem?_cons_succ] at h
      simp only [List.set_cons_succ, List.flatten_cons]
      exact (List.Perm.append_left t (ih j h)).trans List.perm_middle

theorem interleave_perm {α : Type} (schedule : List Nat) (tasks : List (List α)) :
    (interleave schedule tasks).Perm tasks.flatten := by
  induction schedule generalizing tasks with
  | nil => exact List.Perm.refl _
  | cons i rest ih =>
    unfold interleave
    cases h : tasks[i]? with
    | none => exact ih tasks
    | some t =>
      cases t with
      | nil => exact ih tasks
      | cons x xs =>
        exact ((ih (tasks.set i xs)).cons x).trans (flatten_perm_of_getElem? tasks i x xs h).symm

theorem sublist_flatten_of_getElem? {α : Type} (tasks : List (List α)) (j : Nat)
    (t : List α) (h : tasks[j]? = some t) : t.Sublist tasks.flatten := by
  induction tasks generalizing j with
  | nil => simp at h
  | cons u rest ih =>
    cases j with
    | zero =>
      simp only [List.getElem?_cons_zero, Option.some.injEq] at h
      subst h
      simp
    | succ k =>
      simp only [List.getElem?_cons_succ] at h
      simp only [List.flatten_cons]
      exact (ih k h).trans (List.sublist_append_right u rest.flatten)

theorem interleave_sublist {α : Type} (schedule : List Nat) (tasks : List (List α))
    (j : Nat) (t : List α) (h : tasks[j]? = some t) :
    t.Sublist (interleave schedule tasks) := by
  induction schedule generalizing tasks t with
  | nil => exact sublist_flatten_of_getElem? tasks j t h
  | cons i rest ih =>
    unfold interleave
    cases hi : tasks[i]? with
    | none => exact ih tasks t h
    | some u =>
      cases u with
      | nil => exact ih tasks t h
      | cons x xs =>
        have hlt : i < tasks.length := by
          by_contra hge
          rw [List.getElem?_eq_none (by omega)] at hi
          exact Option.noConfusion hi
        by_cases hij : i = j
        · subst hij
          rw [hi] at h
          simp only [Option.some.injEq] at h
          subst h
          have hset : (tasks.set i xs)[i]? = some xs := by
            simp [List.getElem?_set, hlt]
          exact (ih _ xs hset).cons₂ x
        · have hset : (tasks.set i xs)[j]? = some t := by
            simp [List.getElem?_set, hij, h]
          exact (ih _ t hset).cons x

section Dispatcher

variable {V : Type} (toFloat64 : String → Except String V) (tbl : Char → Char)

theorem rowsLoop_frame (query : CustomQuery) (cols : List String)
    (scans : List (Except String (List String))) (ss0 ss : List (Sample V))
    (log0 log : List String) :
    rowsLoop toFloat64 tbl query cols scans ⟨ss0 ++ ss, log0 ++ log⟩
      = ⟨ss0 ++ (rowsLoop toFloat64 tbl query cols scans ⟨ss, log⟩).ss,
         log0 ++ (rowsLoop toFloat64 tbl query cols scans ⟨ss, log⟩).log⟩ := by
  induction scans generalizing ss log with
  | nil => simp [rowsLoop]
  | cons scan rest ih =>
    cases scan with
    | error err => simp [rowsLoop, State.Errorf, List.append_assoc]
    | ok vals =>
      unfold rowsLoop
      dsimp only
      have hf := metricLoop_frame toFloat64 tbl (materializeRow tbl cols vals) query
        (labelLoop (materializeRow tbl cols vals) query.LabelFields []) query.MetricFields
        ss0 ss log0 log
      have hp : parseRow toFloat64 tbl (materializeRow tbl cols vals) query
            ⟨ss0 ++ ss, log0 ++ log⟩
          = (⟨ss0 ++ (parseRow toFloat64 tbl (materializeRow tbl cols vals) query ⟨ss, log⟩).1.ss,
              log0 ++ (parseRow toFloat64 tbl (materializeRow tbl cols vals) query
                ⟨ss, log⟩).1.log⟩,
             (parseRow toFloat64 tbl (materializeRow tbl cols vals) query ⟨ss, log⟩).2) := hf
      rw [hp]
      rcases hr : parseRow toFloat64 tbl (materializeRow tbl cols vals) query ⟨ss, log⟩
        with ⟨⟨ss1, log1⟩, _ | err⟩
      · simpa using ih ss1 log1
      · simpa [State.Errorf, List.append_assoc] using ih ss1 _

theorem collectCustomQuery_frame (run : QueryRun) (query : CustomQuery) (st : State V) :
    collectCustomQuery toFloat64 tbl run query st
      = ⟨st.ss ++ (collectCustomQuery toFloat64 tbl run query ⟨[], []⟩).ss,
         st.log ++ (collectCustomQuery toFloat64 tbl run query ⟨[], []⟩).log⟩ := by
  unfold collectCustomQuery
  cases hd : run.deadlineExceeded with
  | true => simp [State.Errorf]
  | false =>
    cases hq : run.queryErr with
    | some err => simp [State.Errorf]
    | none =>
      cases hc : run.columns with
      | error err => simp [State.Errorf]
      | ok cols =>
        have h := rowsLoop_frame toFloat64 tbl query cols run.scans st.ss [] st.log []
        simpa using h

theorem collectCustomQuery_no_rows (run : QueryRun) (query : CustomQuery)
    (h : run.deadlineExceeded = true ∨ run.queryErr.isSome = true
      ∨ run.columns.toBool = false) :
    (collectCustomQuery toFloat64 tbl run query ⟨[], []⟩).ss = [] := by
  unfold collectCustomQuery
  cases hd : run.deadlineExceeded with
  | true => simp [State.Errorf]
  | false =>
    cases hq : run.queryErr with
    | some err => simp [State.Errorf]
    | none =>
      cases hc : run.columns with
      | error err => simp [State.Errorf]
      | ok cols => simp [hd, hq, hc, Except.toBool] at h

/-- When every goroutine runs to its end before the next one starts (the empty
schedules), the dispatcher is `collectCustomQuery` applied to the shared state
for one definition after the other. -/
theorem collectCustomQueries_in_turn (jobs : List (CustomQuery × QueryRun)) (st : State V) :
    collectCustomQueries toFloat64 tbl [] [] jobs st
      = jobs.foldl (fun acc job => collectCustomQuery toFloat64 tbl job.2 job.1 acc) st := by
  have hfold : ∀ (js : List (CustomQuery × QueryRun)) (acc : State V),
      js.foldl (fun acc job => collectCustomQuery toFloat64 tbl job.2 job.1 acc) acc
        = ⟨acc.ss ++ (js.map (fun job =>
              (collectCustomQuery toFloat64 tbl job.2 job.1 ⟨[], []⟩).ss)).flatten,
           acc.log ++ (js.map (fun job =>
              (collectCustomQuery toFloat64 tbl job.2 job.1 ⟨[], []⟩).log)).flatten⟩ := by
    intro js
    induction js with
    | nil => intro acc; simp
    | cons job rest ih =>
      intro acc
      rw [List.foldl_cons, ih, collectCustomQuery_frame toFloat64 tbl job.2 job.1 acc]
      simp [List.append_assoc]
  unfold collectCustomQueries
  by_cases h0 : jobs.length = 0
  · have : jobs = [] := List.length_eq_zero.mp h0
    subst this
    simp
  · rw [if_neg h0, hfold]
    simp [interleave, List.map_map, Function.comp_def]

end Dispatcher

/-- C9: the dispatcher runs every definition once and joins them all.  Whatever
the order in which the goroutines get to append, the samples added to the sink
are, up to that order, the samples of each definition put together, none lost
and none added, and the samples of one definition keep their own order; the same
holds of the log lines.  A definition that times out, whose query fails or whose
columns cannot be read contributes no sample, and the sink then holds the
samples of all the other definitions.  With no definition the state is left as
it was: nothing is emitted and nothing is reported. -/
theorem collectCustomQueries_joins_all {V : Type} (toFloat64 : String → Except String V)
    (tbl : Char → Char) (sampleOrder lineOrder : List Nat)
    (jobs : List (CustomQuery × QueryRun)) (st : State V) :
    (∃ new : List (Sample V),
        (collectCustomQueries toFloat64 tbl sampleOrder lineOrder jobs st).ss = st.ss ++ new
        ∧ new.Perm (jobs.flatMap (fun job =>
            (collectCustomQuery toFloat64 tbl job.2 job.1 ⟨[], []⟩).ss))
        ∧ (∀ job ∈ jobs,
            (collectCustomQuery toFloat64 tbl job.2 job.1 ⟨[], []⟩).ss.Sublist new)
        ∧ (∀ (pre post : List (CustomQuery × QueryRun)) (job : CustomQuery × QueryRun),
            jobs = pre ++ job :: post →
            (job.2.deadlineExceeded = true ∨ job.2.queryErr.isSome = true
              ∨ job.2.columns.toBool = false) →
            new.Perm ((pre ++ post).flatMap (fun other =>
              (collectCustomQuery toFloat64 tbl other.2 other.1 ⟨[], []⟩).ss))))
    ∧ (∃ lines : List String,
        (collectCustomQueries toFloat64 tbl sampleOrder lineOrder jobs st).log
          = st.log ++ lines
        ∧ lines.Perm (jobs.flatMap (fun job =>
            (collectCustomQuery toFloat64 tbl job.2 job.1 ⟨[], []⟩).log))
        ∧ (∀ job ∈ jobs,
            (collectCustomQuery toFloat64 tbl job.2 job.1 ⟨[], []⟩).log.Sublist lines))
    ∧ collectCustomQueries toFloat64 tbl sampleOrder lineOrder [] st = st := by
  refine ⟨?_, ?_, by simp [collectCustomQueries]⟩
  · by_cases h0 : jobs.length = 0
    · have : jobs = [] := List.length_eq_zero.mp h0
      subst this
      refine ⟨[], by simp [collectCustomQueries], by simp, by simp, ?_⟩
      intro pre post job hj
      simp at hj
    · have hperm : (interleave sampleOrder ((jobs.map (fun job =>
            collectCustomQuery toFloat64 tbl job.2 job.1 ⟨[], []⟩)).map (fun t => t.ss))).Perm
          (jobs.flatMap (fun job =>
            (collectCustomQuery toFloat64 tbl job.2 job.1 ⟨[], []⟩).ss)) := by
        refine (interleave_perm sampleOrder _).trans ?_
        simp [List.flatMap_def, List.map_map, Function.comp_def]
      refine ⟨_, by simp [collectCustomQueries, h0], hperm, ?_, ?_⟩
      · intro job hjob
        obtain ⟨j, hj⟩ := List.getElem?_of_mem hjob
        apply interleave_sublist sampleOrder _ j
        simp [List.getElem?_map, hj]
      · intro pre post job hjobs hfail
        refine hperm.trans ?_
        have hnone := collectCustomQuery_no_rows toFloat64 tbl job.2 job.1 hfail
        subst hjobs
        simp [List.flatMap_append, List.flatMap_cons, hnone]
  · by_cases h0 : jobs.length = 0
    · have : jobs = [] := List.length_eq_zero.mp h0
      subst this
      exact ⟨[], by simp [collectCustomQueries], by simp, by simp⟩
    · have hperm : (interleave lineOrder ((jobs.map (fun job =>
            collectCustomQuery toFloat64 tbl job.2 job.1 ⟨[], []⟩)).map (fun t => t.log))).Perm
          (jobs.flatMap (fun job =>
            (collectCustomQuery toFloat64 tbl job.2 job.1 ⟨[], []⟩).log)) := by
        refine (interleave_perm lineOrder _).trans ?_
        simp [List.flatMap_def, List.map_map, Function.comp_def]
      refine ⟨_, by simp [collectCustomQueries, h0], hperm, ?_⟩
      · intro job hjob
        obtain ⟨j, hj⟩ := List.getElem?_of_mem hjob
        apply interleave_sublist lineOrder _ j
        simp [List.getElem?_map, hj]

/-- C9 (witness): three definitions, the second of which times out; the
goroutines of the first and the third take turns. -/
theorem collectCustomQueries_joins_all_witness :
    collectCustomQueries decimalToFloat64 sampleCaseTable [2, 0, 1, 2, 0] [1, 2]
        [(⟨"m1", ["a", "b"], [], "", 1000000000, "select A, B"⟩,
            ⟨false, none, .ok ["A", "B"], [.ok ["1", "2"], .ok ["3", "x"]]⟩),
         (⟨"m2", ["a"], [], "", 1000000000, "select sleep(2)"⟩,
            ⟨true, some "context deadline exceeded", .error "no rows", []⟩),
         (⟨"m3", ["c"], [], "", 1000000000, "select C"⟩,
            ⟨false, none, .ok ["C"], [.ok ["5"], .ok ["6"]]⟩)]
        ⟨[], []⟩
      = ⟨[⟨"m3", "c", ⟨false, 5, 0⟩, []⟩, ⟨"m1", "a", ⟨false, 1, 0⟩, []⟩,
          ⟨"m3", "c", ⟨false, 6, 0⟩, []⟩, ⟨"m1", "b", ⟨false, 2, 0⟩, []⟩,
          ⟨"m1", "a", ⟨false, 3, 0⟩, []⟩],
         ["query timeout, request: select sleep(2)",
          "failed to convert field: b, value: x, error: unparseable value x",
          "failed to parse row: unparseable value x, sql: select A, B"]⟩
    ∧ collectCustomQueries decimalToFloat64 sampleCaseTable [2, 0, 1, 2, 0] [1, 2]
        ([] : List (CustomQuery × QueryRun)) (⟨[], []⟩ : State Decimal) = ⟨[], []⟩ :=
  ⟨by decide,
   (collectCustomQueries_joins_all decimalToFloat64 sampleCaseTable [2, 0, 1, 2, 0] [1, 2]
      [] ⟨[], []⟩).2.2⟩

end Collector
